import Mathlib

/- Verification development for the video-extraction chat bot (src/bot.py).

   The source is a single Python file.  Its computational core is embedded
   shallowly below:

   * the audio-splitting while loop of split_audio (bot.py lines 106-143),
     with the two per-chunk success signals (transcoder exit code zero and
     existence of the output file) supplied as Boolean oracles indexed by
     the chunk index; the overall duration D, reported by the prober as a
     float, is modelled as a rational number;
   * the chunk-offset pairing built inside transcribe_full_audio
     (bot.py lines 245-258);
   * format_time, the per-segment formatting and the renumbering loop of
     format_transcription_to_text (bot.py lines 183-211); Python floor
     division and the float modulo are modelled on rationals, and the
     Python string primitives strip and lower and the substring test are
     modelled on the underlying character lists;
   * the retry loop of transcribe_audio_chunk (bot.py lines 146-180), with
     the outcome of each attempt supplied by an oracle; the run result
     records the final outcome, the number of attempts made and the list
     of back-off waits performed;
   * the message handler handle_video (bot.py lines 305-345) and the
     orchestration of process_video_extraction (bot.py lines 348-504) as a
     trace of observable actions, with fault injection switches for each
     external step. -/

namespace VideoBot

/-! Audio splitter -/

/-- Number of loop iterations of the splitting loop: the chunk starts are
0, C, 2C, ... and the loop runs while the start is below the duration D,
so the iteration count is the ceiling of D / C (as a natural number). -/
def numChunks (D : ℚ) (C : ℕ) : ℕ := (⌈D / (C : ℚ)⌉).toNat

/-- The while loop of split_audio (bot.py lines 117-140).  The state is the
current chunk index (the start time is the index times the chunk duration,
both Python ints).  The oracle retZero tells whether the ffmpeg invocation
for a given chunk index exits zero, and outExists whether its output file
exists afterwards; a chunk index is appended to the result only when both
hold (bot.py line 135).  The fuel argument bounds the number of iterations;
split_audio passes exactly numChunks, and splitLoop_eq_filter below shows
the loop then always exits through its own guard. -/
def splitLoop (D : ℚ) (C : ℕ) (retZero outExists : ℕ → Bool) : ℕ → ℕ → List ℕ
  | _, 0 => []
  | idx, fuel + 1 =>
    if ((idx * C : ℕ) : ℚ) < D then
      (if retZero idx && outExists idx then [idx] else []) ++
        splitLoop D C retZero outExists (idx + 1) fuel
    else []

/-- Model of split_audio (bot.py lines 106-143): the list of chunk indices
whose chunk files make it into the returned list, in order.  Each returned
index k stands for the chunk file covering the source interval starting at
k times the chunk duration. -/
def split_audio (D : ℚ) (C : ℕ) (retZero outExists : ℕ → Bool) : List ℕ :=
  splitLoop D C retZero outExists 0 (numChunks D C)

/-- The chunk-offset list built inside transcribe_full_audio
(bot.py lines 249-258): enumerate(chunks, 1) pairs each surviving chunk
with its 1-based list position idx, and the recorded offset is
(idx - 1) * chunk_duration, i.e. the 0-based list position times the chunk
duration, regardless of the chunk index encoded in the file name. -/
def chunk_offsets (chunks : List ℕ) (chunkDuration : ℕ) : List ℕ :=
  chunks.enum.map (fun p => p.1 * chunkDuration)

/-! Transcript formatting -/

/-- A transcription segment as used by format_transcription_to_text: the
dictionary keys start, end and text (end is a reserved word in Lean, so the
field is called stop). -/
structure Seg where
  start : ℚ
  stop : ℚ
  text : String
  deriving DecidableEq

/-- Model of the Python str.strip method: drop leading and trailing
whitespace characters. -/
def pyStrip (s : String) : String :=
  String.mk (((s.data.dropWhile Char.isWhitespace).reverse.dropWhile
    Char.isWhitespace).reverse)

/-- Model of the Python str.lower method: lower-case every character. -/
def lowerStr (s : String) : String :=
  String.mk (s.data.map Char.toLower)

/-- Model of the Python float modulo with a positive modulus, as used by
format_time: x mod m is x minus m times the floor of x / m, always in the
interval from 0 (inclusive) to m (exclusive). -/
def pymod (x m : ℚ) : ℚ := x - m * ⌊x / m⌋

/-- Zero-padding to width two of the Python format specifier 02d: a single
digit gets a leading zero, anything at least two characters wide (including
any negative number) is printed as is. -/
def pad2 (n : ℤ) : String :=
  if 0 ≤ n ∧ n < 10 then "0" ++ toString n else toString n

/-- Model of format_time (bot.py lines 183-188).  Python floor division is
the rational floor; the int conversion applied to the nonnegative modulo
results truncates toward zero, which on nonnegative values is again the
floor. -/
def format_time (seconds : ℚ) : String :=
  let hours : ℤ := ⌊seconds / 3600⌋
  let minutes : ℤ := ⌊(pymod seconds 3600) / 60⌋
  let secs : ℤ := ⌊pymod seconds 60⌋
  pad2 hours ++ ":" ++ pad2 minutes ++ ":" ++ pad2 secs

/-- The f-string of bot.py line 207: the segment number, a dot and a space,
the bracketed shifted start and end times joined by a spaced dash, a line
break, the trimmed text, and a line break. -/
def segment_block (n : ℕ) (startT endT : ℚ) (text : String) : String :=
  toString n ++ ". [" ++ format_time startT ++ " - " ++ format_time endT ++
    "]\n" ++ text ++ "\n"

/-- Inner loop of format_transcription_to_text (bot.py lines 200-209) over
the segments of one chunk: shift start and end by the chunk offset, strip
the text, skip segments whose stripped text is empty, otherwise emit a
block carrying the running counter and bump the counter.  Returns the
emitted lines and the counter value after the group. -/
def formatSegs (off : ℚ) : List Seg → ℕ → List String × ℕ
  | [], counter => ([], counter)
  | s :: rest, counter =>
    let startT := s.start + off
    let endT := s.stop + off
    let text := pyStrip s.text
    if text = "" then formatSegs off rest counter
    else
      let r := formatSegs off rest (counter + 1)
      (segment_block counter startT endT text :: r.1, r.2)

/-- Outer loop of format_transcription_to_text (bot.py lines 196-209) over
the chunks.  The source walks two parallel lists (transcriptions and
chunk_offsets, always built in lockstep by transcribe_full_audio); here the
input is the zipped list of (segments, offset) pairs. -/
def formatGroups : List (List Seg × ℚ) → ℕ → List String
  | [], _ => []
  | g :: rest, counter =>
    let r := formatSegs g.2 g.1 counter
    r.1 ++ formatGroups rest r.2

/-- Model of format_transcription_to_text (bot.py lines 191-211): the
emitted blocks joined by a single line break; since every block ends with a
line break of its own, consecutive blocks are separated by a blank line. -/
def format_transcription_to_text (groups : List (List Seg × ℚ)) : String :=
  String.intercalate "\n" (formatGroups groups 1)

/-- The assembler described by the specification words, used as the
refinement target: for each input group in order, shift every contained
segment by the group offset, drop segments whose trimmed text is empty, and
keep the survivors in order (group order, then within-group order) as
(shifted start, shifted end, trimmed text) triples.  The lemma
formatGroups_eq_assembled relates this to the source formatting loop. -/
def assembled (groups : List (List Seg × ℚ)) : List (ℚ × ℚ × String) :=
  groups.flatMap (fun g =>
    (g.1.filter (fun s => ! (pyStrip s.text == ""))).map
      (fun s => (s.start + g.2, s.stop + g.2, pyStrip s.text)))

/-- Rendering of one assembled triple with its 1-based number, shared
between the statements relating the source formatter to the assembler. -/
def renderEntry (p : ℕ × ℚ × ℚ × String) : String :=
  segment_block p.1 p.2.1 p.2.2.1 p.2.2.2

/-- Pairing of input groups with the offsets 0, C, 2C, ... in supply order,
starting at index k, as used to state the monotonicity property of the
assembled transcript. -/
def withOffsetsFrom (C : ℚ) : ℕ → List (List Seg) → List (List Seg × ℚ)
  | _, [] => []
  | k, g :: gs => (g, (k : ℚ) * C) :: withOffsetsFrom C (k + 1) gs

/-! Transcription retry loop -/

/-- Outcome of one attempted service call inside transcribe_audio_chunk:
either a transcription value or a raised error with its message text. -/
inductive AttemptResult (α : Type) where
  | ok (v : α)
  | err (msg : String)
  deriving DecidableEq

/-- Final outcome of the retry loop: a returned value, a re-raised error,
or falling through the loop without any attempt (only possible when the
retry budget is zero; the source then implicitly returns None). -/
inductive RunOutcome (α : Type) where
  | ok (v : α)
  | raised (msg : String)
  | fellThrough
  deriving DecidableEq

/-- Model of the Python substring containment test (needle in hay) on the
underlying character lists. -/
def listContainsSub (needle : List Char) : List Char → Bool
  | [] => needle.isEmpty
  | c :: rest => needle.isPrefixOf (c :: rest) || listContainsSub needle rest

/-- Substring containment on strings, Python spelling: strContains hay
needle is true when needle occurs inside hay. -/
def strContains (hay needle : String) : Bool :=
  listContainsSub needle.data hay.data

/-- The authentication test of bot.py line 171: the lowered error text
contains the word authentication, or contains api_key (with an underscore,
exactly as written in the source). -/
def isAuthError (msg : String) : Bool :=
  strContains (lowerStr msg) "authentication" || strContains (lowerStr msg) "api_key"

/-- The for-loop of transcribe_audio_chunk (bot.py lines 150-180), run from
a given attempt index with the given remaining iteration budget.  Each
iteration consults the oracle: a success returns at once; a failure whose
text passes the authentication test re-raises at once; otherwise, when the
attempt index is below maxRetries - 1, the loop sleeps two to the power of
the attempt index (recorded in the wait list) and retries, and on the final
attempt it re-raises.  The result is the outcome together with the number
of attempts made and the waits performed, in order. -/
def retryGo {α : Type} (attempts : ℕ → AttemptResult α) (maxRetries : ℕ) :
    ℕ → ℕ → RunOutcome α × ℕ × List ℕ
  | _, 0 => (RunOutcome.fellThrough, 0, [])
  | attempt, fuel + 1 =>
    match attempts attempt with
    | AttemptResult.ok v => (RunOutcome.ok v, 1, [])
    | AttemptResult.err msg =>
      if isAuthError msg then (RunOutcome.raised msg, 1, [])
      else if attempt < maxRetries - 1 then
        let r := retryGo attempts maxRetries (attempt + 1) fuel
        (r.1, r.2.1 + 1, 2 ^ attempt :: r.2.2)
      else (RunOutcome.raised msg, 1, [])

/-- Model of transcribe_audio_chunk (bot.py lines 146-180): run the retry
loop from attempt index 0 with maxRetries iterations (the source default is
maxRetries = 3). -/
def transcribe_audio_chunk {α : Type} (attempts : ℕ → AttemptResult α)
    (maxRetries : ℕ) : RunOutcome α × ℕ × List ℕ :=
  retryGo attempts maxRetries 0 maxRetries

/-! Pipeline orchestration -/

/-- The processing mode selected by the user, with the callback identifiers
of bot.py lines 298-300. -/
inductive Mode where
  | audio_only
  | transcription_only
  | audio_and_transcription
  deriving DecidableEq, Fintype

/-- Observable actions of the handler and of one pipeline run, in the order
they are performed. -/
inductive Act where
  | rejectOversize
  | rejectMissingFfmpeg
  | showOptions
  | replyVideoNotFound
  | createWorkspace
  | download
  | convert
  | sendAudioFile
  | sendTranscriptFile
  | sendErrorMessage
  | deleteWorkspace
  deriving DecidableEq

/-- Model of handle_video (bot.py lines 305-345).  Inputs: the declared
byte size of the submitted video, the configured maximum in megabytes
(bot.py line 311, default 100), whether ffmpeg is installed, the current
pending-submission slot of the user session, and the file identifier of the
submission.  Returns the emitted actions and the new pending slot.  An
oversize submission is rejected before anything is stored or shown; only
the success path stores the file identifier and shows the mode options. -/
def handle_video (fileSize maxSizeMB : ℕ) (ffmpegInstalled : Bool)
    (pendingSlot : Option ℕ) (fileId : ℕ) : List Act × Option ℕ :=
  let maxSizeBytes := maxSizeMB * 1024 * 1024
  if maxSizeBytes < fileSize then ([Act.rejectOversize], pendingSlot)
  else if ffmpegInstalled = false then ([Act.rejectMissingFfmpeg], pendingSlot)
  else ([Act.showOptions], some fileId)

/-- The try block of process_video_extraction (bot.py lines 385-473) after
the workspace has been created: download, convert, check the output file,
then deliver per mode.  Each Boolean switch injects a failure of the
corresponding external step: downloadOk for the video download, convertOk
for the ffmpeg conversion exit code, audioCreated for the existence check
of the produced file, apiKeyPresent for the credential check performed
inside transcribe_full_audio (bot.py lines 221-223), and serviceOk for the
transcription service calls.  Returns the performed actions and whether the
block completed without raising. -/
def pipeline_try (mode : Mode)
    (downloadOk convertOk audioCreated apiKeyPresent serviceOk : Bool) :
    List Act × Bool :=
  if downloadOk = false then ([Act.download], false)
  else if convertOk = false then ([Act.download, Act.convert], false)
  else if audioCreated = false then ([Act.download, Act.convert], false)
  else
    match mode with
    | Mode.audio_only => ([Act.download, Act.convert, Act.sendAudioFile], true)
    | Mode.transcription_only =>
      if apiKeyPresent = false then ([Act.download, Act.convert], false)
      else if serviceOk = false then ([Act.download, Act.convert], false)
      else ([Act.download, Act.convert, Act.sendTranscriptFile], true)
    | Mode.audio_and_transcription =>
      if apiKeyPresent = false then ([Act.download, Act.convert, Act.sendAudioFile], false)
      else if serviceOk = false then ([Act.download, Act.convert, Act.sendAudioFile], false)
      else ([Act.download, Act.convert, Act.sendAudioFile, Act.sendTranscriptFile], true)

/-- Model of process_video_extraction (bot.py lines 348-504).  When no
pending video identifier exists the handler only replies and returns
(bot.py lines 367-369).  Otherwise the workspace is created at the top of
the try block (bot.py line 387), the body runs with the given fault
switches, a failure sends one error message (bot.py lines 475-495), and the
finally clause deletes the workspace exactly once on every path
(bot.py lines 497-504). -/
def process_video_extraction (hasVideoId : Bool) (mode : Mode)
    (downloadOk convertOk audioCreated apiKeyPresent serviceOk : Bool) : List Act :=
  if hasVideoId = false then [Act.replyVideoNotFound]
  else
    let r := pipeline_try mode downloadOk convertOk audioCreated apiKeyPresent serviceOk
    Act.createWorkspace ::
      (r.1 ++ (if r.2 then [] else [Act.sendErrorMessage]) ++ [Act.deleteWorkspace])

/-! Splitter lemmas -/

/-- The loop guard of split_audio at chunk index idx holds exactly when idx
is below the ceiling of D / C. -/
lemma splitCond_iff (D : ℚ) (C : ℕ) (hC : 0 < C) (idx : ℕ) :
    (((idx * C : ℕ) : ℚ) < D) ↔ idx < numChunks D C := by
  have hCq : (0 : ℚ) < (C : ℚ) := by exact_mod_cast hC
  rw [numChunks, Int.lt_toNat, Int.lt_ceil, lt_div_iff₀ hCq]
  push_cast
  exact Iff.rfl

/-- With enough fuel, the splitting loop started at index idx returns the
surviving indices among idx, idx + 1, ..., numChunks - 1. -/
lemma splitLoop_eq_filter (D : ℚ) (C : ℕ) (hC : 0 < C)
    (retZero outExists : ℕ → Bool) :
    ∀ (fuel idx : ℕ), numChunks D C ≤ idx + fuel →
      splitLoop D C retZero outExists idx fuel =
        (List.range' idx (numChunks D C - idx)).filter
          (fun i => retZero i && outExists i) := by
  intro fuel
  induction fuel with
  | zero =>
    intro idx h
    have h0 : numChunks D C - idx = 0 := by omega
    simp [splitLoop, h0]
  | succ fuel ih =>
    intro idx h
    by_cases hidx : idx < numChunks D C
    · have hcond : ((idx * C : ℕ) : ℚ) < D := (splitCond_iff D C hC idx).mpr hidx
      have hsub : numChunks D C - idx = (numChunks D C - (idx + 1)) + 1 := by omega
      rw [splitLoop, if_pos hcond, ih (idx + 1) (by omega), hsub, List.range'_succ,
        List.filter_cons]
      by_cases hok : (retZero idx && outExists idx) = true
      · simp [hok]
      · simp [hok]
    · have hcond : ¬ (((idx * C : ℕ) : ℚ) < D) := fun hc =>
        hidx ((splitCond_iff D C hC idx).mp hc)
      have h0 : numChunks D C - idx = 0 := by omega
      rw [splitLoop, if_neg hcond, h0]
      simp

/-- The splitting loop with its actual fuel equals the filter of the full
index range: chunk index i survives exactly when its invocation exits zero
and its output file exists. -/
lemma split_audio_eq_filter (D : ℚ) (C : ℕ) (hC : 0 < C)
    (retZero outExists : ℕ → Bool) :
    split_audio D C retZero outExists =
      (List.range (numChunks D C)).filter (fun i => retZero i && outExists i) := by
  rw [ split_audio, splitLoop_eq_filter D C hC retZero outExists (numChunks D C) 0
    (by omega), List.range_eq_range']
  simp

/-- Claim C1: for duration D and chunk size C above 0, split_audio emits
exactly numChunks D C (the ceiling of D / C) chunks, in increasing order,
when every per-chunk invocation exits zero and leaves its output file; a
chunk is in the result exactly when it is one of the numChunks invoked
indices, its invocation exits zero and its output file exists (so a failed
invocation is silently skipped, yielding fewer chunks); and the result
never holds more than numChunks D C chunks. -/
theorem split_audio_chunk_count (D : ℚ) (C : ℕ) (hC : 0 < C)
    (retZero outExists : ℕ → Bool) :
    ((∀ i, i < numChunks D C → retZero i = true ∧ outExists i = true) →
        ( split_audio D C retZero outExists).length = numChunks D C)
      ∧ (∀ i, i ∈ split_audio D C retZero outExists ↔
          i < numChunks D C ∧ retZero i = true ∧ outExists i = true)
      ∧ ( split_audio D C retZero outExists).length ≤ numChunks D C
      ∧ List.Sorted (· < ·) ( split_audio D C retZero outExists) := by
  have he := split_audio_eq_filter D C hC retZero outExists
  refine ⟨?_, ?_, ?_, ?_⟩
  · intro hall
    rw [he, List.filter_eq_self.mpr ?_, List.length_range]
    intro a ha
    rw [List.mem_range] at ha
    simp [ (hall a ha).1, (hall a ha).2]
  · intro i
    rw [he, List.mem_filter, List.mem_range, Bool.and_eq_true]
  · rw [he]
    calc ((List.range (numChunks D C)).filter
            (fun i => retZero i && outExists i)).length
        ≤ (List.range (numChunks D C)).length := List.length_filter_le _ _
      _ = numChunks D C := List.length_range _
  · rw [he]
    exact (List.pairwise_lt_range _).filter _

/-- Witness for split_audio_chunk_count at D = 650, C = 300 with all
invocations succeeding. -/
theorem split_audio_chunk_count_witness :
    0 < 300
      ∧ (((∀ i, i < numChunks 650 300 → (fun _ : ℕ => true) i = true ∧
              (fun _ : ℕ => true) i = true) →
            ( split_audio 650 300 (fun _ => true) (fun _ => true)).length =
              numChunks 650 300)
          ∧ (∀ i, i ∈ split_audio 650 300 (fun _ => true) (fun _ => true) ↔
              i < numChunks 650 300 ∧ (fun _ : ℕ => true) i = true ∧
                (fun _ : ℕ => true) i = true)
          ∧ ( split_audio 650 300 (fun _ => true) (fun _ => true)).length ≤
              numChunks 650 300
          ∧ List.Sorted (· < ·) ( split_audio 650 300 (fun _ => true) (fun _ => true))) :=
  ⟨by decide, split_audio_chunk_count 650 300 (by decide) (fun _ => true) (fun _ => true)⟩

/-! Positional chunk offsets -/

/-- Splitting of the index range at a cut point g below N. -/
lemma range_split (N g : ℕ) (hg : g ≤ N) :
    List.range N = List.range' 0 g ++ List.range' g (N - g) := by
  have h3 : (0 : ℕ) + 1 * g = g := by omega
  have happ := List.range'_append 0 g (N - g) 1
  rw [h3] at happ
  rw [List.range_eq_range', happ]
  congr 1
  omega

/-- Position of an element of a filtered range: whenever some smaller index
was dropped by the filter, the position of the element in the filtered list
is strictly below the element itself. -/
lemma pos_lt_of_dropped (N : ℕ) (p : ℕ → Bool) (l : List ℕ)
    (hl : l = (List.range N).filter p) (i : ℕ) (h : i < l.length) (j' : ℕ)
    (hj' : j' < l[i]) (hpj' : p j' = false) : i < l[i] := by
  have hmem : l[i] ∈ l := List.getElem_mem h
  have hmem2 : l[i] ∈ (List.range N).filter p := by
    rw [← hl]
    exact hmem
  rw [List.mem_filter, List.mem_range] at hmem2
  revert hj' hmem2
  generalize hg : l[i] = g
  intro hj' hmem2
  obtain ⟨hgN, hgp⟩ := hmem2
  have hdec : l = (List.range' 0 g).filter p ++
      (g :: (List.range' (g + 1) (N - (g + 1))).filter p) := by
    have hr := range_split N g (by omega)
    have hr2 : List.range' g (N - g) =
        g :: List.range' (g + 1) (N - (g + 1)) := by
      have h4 : N - g = (N - (g + 1)) + 1 := by omega
      rw [h4, List.range'_succ]
    rw [hl, hr, List.filter_append, hr2, List.filter_cons]
    simp [hgp]
  have hnodup : l.Nodup := by
    rw [hl]
    exact (List.nodup_range N).filter p
  have hlen : ((List.range' 0 g).filter p).length < l.length := by
    have hli := congrArg List.length hdec
    rw [List.length_append] at hli
    simp only [List.length_cons] at hli
    omega
  have hAg : l[((List.range' 0 g).filter p).length] = g := by
    rw [List.getElem_of_eq hdec hlen]
    rw [List.getElem_append_right (Nat.le_refl _)]
    simp
  have hAgi : l[((List.range' 0 g).filter p).length] = l[i] := hAg.trans hg.symm
  have hpos : ((List.range' 0 g).filter p).length = i :=
    (hnodup.getElem_inj_iff).mp hAgi
  have hAlt : ((List.range' 0 g).filter p).length < g := by
    have hx : ((List.range' 0 g).filter p).length <
        (List.range' 0 g).length :=
      List.length_filter_lt_length_iff_exists.mpr
        ⟨j', by rw [List.mem_range'_1]; omega, by simp [hpj']⟩
    simpa using hx
  omega

/-- Claim C10: the offset paired by transcribe_full_audio with the chunk at
0-based list position k is k times the chunk duration, derived from the
list position alone; hence, whenever an earlier chunk invocation failed and
was dropped, every later chunk sits at a position strictly below its chunk
index and is therefore assembled with an offset strictly smaller than its
true start offset (its chunk index times the chunk duration). -/
theorem chunk_offset_positional (D : ℚ) (C : ℕ) (hC : 0 < C)
    (retZero outExists : ℕ → Bool) :
    chunk_offsets ( split_audio D C retZero outExists) C =
        (List.range ( split_audio D C retZero outExists).length).map (fun k => k * C)
      ∧ ∀ (i : ℕ) (h : i < ( split_audio D C retZero outExists).length),
          (∃ j, j < ( split_audio D C retZero outExists)[i] ∧ j < numChunks D C ∧
              (retZero j && outExists j) = false) →
            i * C < ( split_audio D C retZero outExists)[i] * C := by
  constructor
  · rw [chunk_offsets, ← List.enum_map_fst ( split_audio D C retZero outExists),
      List.map_map]
    rfl
  · intro i h hex
    obtain ⟨j', hj', hjN, hjf⟩ := hex
    have hig : i < ( split_audio D C retZero outExists)[i] :=
      pos_lt_of_dropped (numChunks D C) (fun k => retZero k && outExists k)
        ( split_audio D C retZero outExists)
        (split_audio_eq_filter D C hC retZero outExists) i h j' hj' hjf
    exact mul_lt_mul_of_pos_right hig hC

/-- Witness for chunk_offset_positional at D = 650, C = 300, with the
invocation for chunk 0 failing and all others succeeding. -/
theorem chunk_offset_positional_witness :
    0 < 300
      ∧ (chunk_offsets ( split_audio 650 300 (fun k => ! (k == 0)) (fun _ => true)) 300 =
            (List.range ( split_audio 650 300 (fun k => ! (k == 0)) (fun _ => true)).length).map
              (fun k => k * 300)
          ∧ ∀ (i : ℕ) (h : i < ( split_audio 650 300 (fun k => ! (k == 0)) (fun _ => true)).length),
              (∃ j, j < ( split_audio 650 300 (fun k => ! (k == 0)) (fun _ => true))[i] ∧
                  j < numChunks 650 300 ∧
                  ((fun k => ! (k == 0)) j && (fun _ : ℕ => true) j) = false) →
                i * 300 < ( split_audio 650 300 (fun k => ! (k == 0)) (fun _ => true))[i] * 300) :=
  ⟨by decide, chunk_offset_positional 650 300 (by decide) (fun k => ! (k == 0)) (fun _ => true)⟩

/-! Assembler refinement -/

/-- One group of the source formatting loop equals the spec-worded
assembler on that group: survivors in order, numbered from the incoming
counter, and the counter advanced by the number of survivors. -/
lemma formatSegs_eq (off : ℚ) (segs : List Seg) :
    ∀ counter : ℕ,
      formatSegs off segs counter =
        ((((segs.filter (fun s => ! (pyStrip s.text == ""))).map
              (fun s => (s.start + off, s.stop + off, pyStrip s.text))).enumFrom
            counter).map renderEntry,
          counter + (segs.filter (fun s => ! (pyStrip s.text == ""))).length) := by
  induction segs with
  | nil =>
    intro counter
    simp [formatSegs]
  | cons s rest ih =>
    intro counter
    by_cases hs : pyStrip s.text = ""
    · simp only [formatSegs]
      rw [if_pos hs]
      rw [ih counter]
      simp [List.filter_cons, hs]
    · simp only [formatSegs]
      rw [if_neg hs]
      rw [ih (counter + 1)]
      have hcond : (! (pyStrip s.text == "")) = true := by
        simp [hs]
      simp only [List.filter_cons, hcond, if_pos, List.map_cons, List.enumFrom_cons,
        List.length_cons, renderEntry]
      rw [Prod.mk.injEq]
      exact ⟨rfl, by omega⟩

/-- The full source formatting loop equals the spec-worded assembler with
numbering starting at the incoming counter. -/
lemma formatGroups_eq (groups : List (List Seg × ℚ)) :
    ∀ counter : ℕ,
      formatGroups groups counter = ((assembled groups).enumFrom counter).map renderEntry := by
  induction groups with
  | nil =>
    intro counter
    simp [formatGroups, assembled]
  | cons g rest ih =>
    intro counter
    simp only [formatGroups, formatSegs_eq, ih]
    simp only [assembled, List.flatMap_cons]
    rw [List.enumFrom_append, List.map_append, List.length_map]

/-- Claim C5: the assembler drops every segment whose trimmed text is
empty, keeps the survivors in the order encountered (group order, then
within-group order), and numbers them contiguously starting at 1 with no
gaps, regardless of how many input groups are empty: the source loop with
counter 1 renders exactly the spec-worded assembled survivor list numbered
by positions 1, 2, ..., N. -/
theorem assembler_renumbering (groups : List (List Seg × ℚ)) :
    formatGroups groups 1 = ((assembled groups).enumFrom 1).map renderEntry
      ∧ (formatGroups groups 1).length = (assembled groups).length
      ∧ ((assembled groups).enumFrom 1).map Prod.fst =
          List.range' 1 (assembled groups).length := by
  refine ⟨formatGroups_eq groups 1, ?_, List.enumFrom_map_fst 1 _⟩
  rw [formatGroups_eq groups 1, List.length_map, List.enumFrom_length]

/-- Claim C6: the assembler shifts each segment start and end by its group
offset and renders each surviving segment as a block made of its number, a
dot and a space, the two shifted times in hours-minutes-seconds form inside
brackets joined by a spaced dash, a line break, the text, and a line break,
with the blocks joined by a single line break (hence separated by a blank
line); and concretely, for a duration of 650 seconds and chunks of 300
seconds the pipeline pairs the three chunks with offsets 0, 300 and 600,
while a segment at local times 10 to 15 in the third group assembles to
global times 610 to 615 and renders with the bracket 00:10:10 - 00:10:15. -/
theorem assembler_block_format_example :
    (∀ groups : List (List Seg × ℚ),
        format_transcription_to_text groups =
          String.intercalate "\n" (((assembled groups).enumFrom 1).map renderEntry))
      ∧ chunk_offsets ( split_audio 650 300 (fun _ => true) (fun _ => true)) 300 =
          [0, 300, 600]
      ∧ assembled [([], 0), ([], 300), ([Seg.mk 10 15 "sample"], 600)] =
          [(610, 615, "sample")]
      ∧ format_transcription_to_text [([], 0), ([], 300), ([Seg.mk 10 15 "sample"], 600)] =
          "1. [00:10:10 - 00:10:15]\nsample\n"
      ∧ segment_block 1 610 615 "sample" = "1. [00:10:10 - 00:10:15]\nsample\n" := by
  have hnum : numChunks 650 300 = 3 := by
    have hcast : ((300 : ℕ) : ℚ) = 300 := by norm_num
    rw [numChunks, hcast]
    have hceil : (⌈(650 : ℚ) / 300⌉ : ℤ) = 3 := by norm_num [Int.ceil_eq_iff]
    rw [hceil]
    rfl
  have hsplit3 : split_audio 650 300 (fun _ => true) (fun _ => true) = [0, 1, 2] := by
    rw [split_audio_eq_filter 650 300 (by norm_num) (fun _ => true) (fun _ => true), hnum]
    decide
  have hps : pyStrip "sample" = "sample" := by decide
  have hasm : assembled [([], 0), ([], 300), ([Seg.mk 10 15 "sample"], 600)] =
      [(610, 615, "sample")] := by
    have hc : (! (pyStrip (Seg.mk 10 15 "sample").text == "")) = true := by decide
    simp only [assembled, List.flatMap_cons, List.flatMap_nil, List.filter_cons, hc,
      if_pos, List.filter_nil, List.map_cons, List.map_nil, List.nil_append,
      List.append_nil, hps]
    have hcc : (! ("sample" == "")) = true := by decide
    simp only [hcc]
    rw [if_pos trivial]
    simp only [List.map_cons, List.map_nil, hps]
    norm_num
  have h610 : format_time 610 = "00:10:10" := by
    have f1 : ⌊(610 : ℚ) / 3600⌋ = 0 := by norm_num [Int.floor_eq_iff]
    have f2 : pymod 610 3600 = 610 := by
      rw [pymod, f1]
      norm_num
    have f3 : ⌊(610 : ℚ) / 60⌋ = 10 := by norm_num [Int.floor_eq_iff]
    have f4 : pymod 610 60 = 10 := by
      rw [pymod, f3]
      norm_num
    have f5 : ⌊(10 : ℚ)⌋ = 10 := by norm_num
    simp only [format_time, f1, f2, f3, f4, f5]
    decide
  have h615 : format_time 615 = "00:10:15" := by
    have f1 : ⌊(615 : ℚ) / 3600⌋ = 0 := by norm_num [Int.floor_eq_iff]
    have f2 : pymod 615 3600 = 615 := by
      rw [pymod, f1]
      norm_num
    have f3 : ⌊(615 : ℚ) / 60⌋ = 10 := by norm_num [Int.floor_eq_iff]
    have f4 : pymod 615 60 = 15 := by
      rw [pymod, f3]
      norm_num
    have f5 : ⌊(15 : ℚ)⌋ = 15 := by norm_num
    simp only [format_time, f1, f2, f3, f4, f5]
    decide
  have hblock : segment_block 1 610 615 "sample" = "1. [00:10:10 - 00:10:15]\nsample\n" := by
    rw [segment_block, h610, h615]
    decide
  refine ⟨?_, ?_, hasm, ?_, hblock⟩
  · intro groups
    rw [format_transcription_to_text, formatGroups_eq]
  · rw [hsplit3]
    decide
  · rw [format_transcription_to_text, formatGroups_eq, hasm]
    simp only [List.enumFrom_cons, List.enumFrom_nil, List.map_cons, List.map_nil,
      renderEntry]
    rw [hblock]
    rfl

/-! Monotonicity of assembled start times -/

/-- Lower bound: when every local start time is nonnegative, every start
time assembled from groups paired with offsets k C, (k + 1) C, ... is at
least k C. -/
lemma assembled_starts_lb (C : ℚ) (hC : 0 ≤ C) :
    ∀ (gs : List (List Seg)) (k : ℕ),
      (∀ g ∈ gs, ∀ s ∈ g, 0 ≤ s.start) →
      ∀ x ∈ (assembled (withOffsetsFrom C k gs)).map (fun p => p.1),
        (k : ℚ) * C ≤ x := by
  intro gs
  induction gs with
  | nil =>
    intro k hpos x hx
    simp [withOffsetsFrom, assembled] at hx
  | cons g rest ih =>
    intro k hpos x hx
    simp only [withOffsetsFrom, assembled, List.flatMap_cons, List.map_append] at hx
    rw [List.mem_append] at hx
    rcases hx with hx | hx
    · simp only [List.map_map, List.mem_map, Function.comp] at hx
      obtain ⟨s, hs, hsx⟩ := hx
      have hs0 : 0 ≤ s.start := hpos g (by simp) s (List.mem_of_mem_filter hs)
      linarith [hsx.symm.le, hsx.le]
    · have hx2 := ih (k + 1) (fun g2 hg2 => hpos g2 (by simp [hg2])) x hx
      have hk : ((k : ℚ)) * C ≤ ((k + 1 : ℕ) : ℚ) * C := by
        have : ((k : ℚ)) ≤ ((k + 1 : ℕ) : ℚ) := by push_cast; linarith
        exact mul_le_mul_of_nonneg_right this hC
      linarith

/-- Chained monotonicity: when each group is time-ordered with local starts
between 0 and C, the assembled start times from offsets k C, (k + 1) C, ...
form a non-decreasing chain. -/
lemma assembled_starts_chain (C : ℚ) (hC : 0 ≤ C) :
    ∀ (gs : List (List Seg)) (k : ℕ),
      (∀ g ∈ gs, List.Chain' (· ≤ ·) (g.map Seg.start)) →
      (∀ g ∈ gs, ∀ s ∈ g, 0 ≤ s.start ∧ s.start ≤ C) →
      List.Chain' (· ≤ ·) ((assembled (withOffsetsFrom C k gs)).map (fun p => p.1)) := by
  intro gs
  induction gs with
  | nil =>
    intro k hord hrange
    simp [withOffsetsFrom, assembled]
  | cons g rest ih =>
    intro k hord hrange
    simp only [withOffsetsFrom, assembled, List.flatMap_cons, List.map_append]
    refine List.Chain'.append ?_ ?_ ?_
    · have h1 : List.Chain' (· ≤ ·) (g.map Seg.start) := hord g (by simp)
      have h2 : List.Pairwise (· ≤ ·) (g.map Seg.start) :=
        List.chain'_iff_pairwise.mp h1
      have h3 : List.Pairwise (fun a b : Seg => a.start ≤ b.start) g :=
        List.pairwise_map.mp h2
      have h4 : List.Pairwise (fun a b : Seg => a.start ≤ b.start)
          (g.filter (fun s => ! (pyStrip s.text == ""))) :=
        h3.sublist (List.filter_sublist g)
      have h5 : List.Pairwise (· ≤ ·)
          ((g.filter (fun s => ! (pyStrip s.text == ""))).map
            (fun s => s.start + (k : ℚ) * C)) :=
        h4.map _ (fun a b hab => add_le_add_right hab _)
      rw [List.map_map]
      exact h5.chain'
    · exact ih (k + 1) (fun g2 hg2 => hord g2 (by simp [hg2]))
        (fun g2 hg2 => hrange g2 (by simp [hg2]))
    · intro x hx y hy
      have hxm := List.mem_of_mem_getLast? hx
      simp only [List.map_map, List.mem_map, Function.comp] at hxm
      obtain ⟨s, hs, hsx⟩ := hxm
      have hsC : s.start ≤ C :=
        (hrange g (by simp) s (List.mem_of_mem_filter hs)).2
      have hyb : ((k + 1 : ℕ) : ℚ) * C ≤ y :=
        assembled_starts_lb C hC rest (k + 1)
          (fun g2 hg2 s2 hs2 => (hrange g2 (by simp [hg2]) s2 hs2).1) y
          (List.mem_of_mem_head? hy)
      have hexp : ((k + 1 : ℕ) : ℚ) * C = (k : ℚ) * C + C := by
        push_cast
        ring
      rw [hexp] at hyb
      linarith [hsx.le, hsx.symm.le]

/-- Claim C7: for input groups supplied in chunk order and paired with the
offsets 0, C, 2 C, ..., each group time-ordered with local start times
between 0 and C, the start times of consecutive assembled segments are
non-decreasing across the whole assembled transcript (the lemma
formatGroups_eq ties the assembled list to the rendered transcript). -/
theorem assembled_starts_monotone (groups : List (List Seg)) (C : ℚ) (hC : 0 ≤ C)
    (hord : ∀ g ∈ groups, List.Chain' (· ≤ ·) (g.map Seg.start))
    (hrange : ∀ g ∈ groups, ∀ s ∈ g, 0 ≤ s.start ∧ s.start ≤ C) :
    List.Chain' (· ≤ ·) ((assembled (withOffsetsFrom C 0 groups)).map (fun p => p.1)) :=
  assembled_starts_chain C hC groups 0 hord hrange

/-- Witness for assembled_starts_monotone on two concrete groups with
chunk duration 300. -/
theorem assembled_starts_monotone_witness :
    (0 : ℚ) ≤ 300
      ∧ (∀ g ∈ [[Seg.mk 10 15 "a"], [Seg.mk 5 8 "b"]],
          List.Chain' (· ≤ ·) (g.map Seg.start))
      ∧ (∀ g ∈ [[Seg.mk 10 15 "a"], [Seg.mk 5 8 "b"]],
          ∀ s ∈ g, 0 ≤ s.start ∧ s.start ≤ 300)
      ∧ List.Chain' (· ≤ ·)
          ((assembled (withOffsetsFrom 300 0
              [[Seg.mk 10 15 "a"], [Seg.mk 5 8 "b"]])).map (fun p => p.1)) :=
  ⟨by decide, by simp, by decide,
    assembled_starts_monotone [[Seg.mk 10 15 "a"], [Seg.mk 5 8 "b"]] 300
      (by decide) (by simp) (by decide)⟩

/-! Retry loop lemmas -/

/-- With at least one unit of fuel the retry loop makes at least one
attempt. -/
lemma retryGo_pos {α : Type} (a : ℕ → AttemptResult α) (m attempt fuel : ℕ)
    (hf : 1 ≤ fuel) : 1 ≤ (retryGo a m attempt fuel).2.1 := by
  cases fuel with
  | zero => omega
  | succ f =>
    simp only [retryGo]
    cases h0 : a attempt with
    | ok v => simp
    | err msg =>
      by_cases hA : isAuthError msg
      · simp [hA]
      · by_cases hlt : attempt < m - 1
        · simp [hA, hlt]
        · simp [hA, hlt]

/-- The number of attempts made never exceeds the fuel. -/
lemma retryGo_le {α : Type} (a : ℕ → AttemptResult α) (m : ℕ) :
    ∀ (fuel attempt : ℕ), (retryGo a m attempt fuel).2.1 ≤ fuel := by
  intro fuel
  induction fuel with
  | zero =>
    intro attempt
    simp [retryGo]
  | succ f ih =>
    intro attempt
    simp only [retryGo]
    cases h0 : a attempt with
    | ok v => simp
    | err msg =>
      by_cases hA : isAuthError msg
      · simp [hA]
      · by_cases hlt : attempt < m - 1
        · simp only [hA, hlt, if_true, if_false]
          have := ih (attempt + 1)
          simp
          omega
        · simp [hA, hlt]

/-- The waits performed by the retry loop are exactly two to the power of
each non-final attempt index, in order: with n attempts made from attempt
index a, the waits are 2 to the a, 2 to the (a + 1), ..., 2 to the
(a + n - 2). -/
lemma retryGo_waits {α : Type} (a : ℕ → AttemptResult α) (m : ℕ) :
    ∀ (fuel attempt : ℕ), attempt + fuel = m →
      (retryGo a m attempt fuel).2.2 =
        (List.range' attempt ((retryGo a m attempt fuel).2.1 - 1)).map
          (fun i => 2 ^ i) := by
  intro fuel
  induction fuel with
  | zero =>
    intro attempt hinv
    simp [retryGo]
  | succ f ih =>
    intro attempt hinv
    simp only [retryGo]
    cases h0 : a attempt with
    | ok v => simp
    | err msg =>
      by_cases hA : isAuthError msg
      · simp [hA]
      · by_cases hlt : attempt < m - 1
        · simp only [hA, hlt, if_true, if_false, Bool.false_eq_true]
          have hrec := ih (attempt + 1) (by omega)
          have hpos : 1 ≤ (retryGo a m (attempt + 1) f).2.1 :=
            retryGo_pos a m (attempt + 1) f (by omega)
          have hr : (retryGo a m (attempt + 1) f).2.1 =
              ((retryGo a m (attempt + 1) f).2.1 - 1) + 1 := by omega
          simp only [Nat.add_sub_cancel]
          rw [hr, List.range'_succ, List.map_cons, ← hrec]
        · simp [hA, hlt]

/-- The claim that an error whose text contains the words api key (with a
space) is never retried is false on the code: bot.py line 171 tests for the
substring api_key with an underscore, so the realistic message text of an
invalid-credential failure is retried; with every attempt failing with that
text, the loop makes all 3 attempts instead of exactly one. -/
theorem api_key_spaced_error_is_retried :
    strContains (lowerStr "Incorrect API key provided") "api key" = true
      ∧ isAuthError "Incorrect API key provided" = false
      ∧ (transcribe_audio_chunk
          (fun _ => AttemptResult.err "Incorrect API key provided" :
            ℕ → AttemptResult ℕ) 3).2.1 = 3 := by
  decide

/-- Claim C2 (amended: the non-retryable error texts are those containing
authentication or api_key with an underscore, as in bot.py line 171): at
most 3 attempts are made; the waits are exactly 2 to the attempt index
after each non-final failed attempt (1s then 2s, none after the final
attempt); two non-auth failures followed by a success return the success
with 3 attempts and waits 1 and 2; an auth-flavored first failure makes
exactly one attempt with no wait; three non-auth failures surface the last
error to the caller after 3 attempts. -/
theorem transcribe_retry_policy (attempts : ℕ → AttemptResult ℕ) :
    (transcribe_audio_chunk attempts 3).2.1 ≤ 3
      ∧ (transcribe_audio_chunk attempts 3).2.2 =
          (List.range ((transcribe_audio_chunk attempts 3).2.1 - 1)).map
            (fun i => 2 ^ i)
      ∧ (∀ m₀ m₁ v, attempts 0 = AttemptResult.err m₀ → isAuthError m₀ = false →
          attempts 1 = AttemptResult.err m₁ → isAuthError m₁ = false →
          attempts 2 = AttemptResult.ok v →
          transcribe_audio_chunk attempts 3 = (RunOutcome.ok v, 3, [1, 2]))
      ∧ (∀ m, attempts 0 = AttemptResult.err m → isAuthError m = true →
          transcribe_audio_chunk attempts 3 = (RunOutcome.raised m, 1, []))
      ∧ (∀ m₀ m₁ m₂, attempts 0 = AttemptResult.err m₀ → isAuthError m₀ = false →
          attempts 1 = AttemptResult.err m₁ → isAuthError m₁ = false →
          attempts 2 = AttemptResult.err m₂ → isAuthError m₂ = false →
          transcribe_audio_chunk attempts 3 = (RunOutcome.raised m₂, 3, [1, 2])) := by
  refine ⟨retryGo_le attempts 3 3 0, ?_, ?_, ?_, ?_⟩
  · have hw := retryGo_waits attempts 3 3 0 (by omega)
    rw [transcribe_audio_chunk, hw, List.range_eq_range']
  · intro m₀ m₁ v h0 hna0 h1 hna1 h2
    simp [transcribe_audio_chunk, retryGo, h0, h1, h2, hna0, hna1]
  · intro m h0 hA
    simp [transcribe_audio_chunk, retryGo, h0, hA]
  · intro m₀ m₁ m₂ h0 hna0 h1 hna1 h2 hna2
    simp [transcribe_audio_chunk, retryGo, h0, h1, h2, hna0, hna1, hna2]

/-- Witness for transcribe_retry_policy: two failures with a retryable
message followed by a success return the success result after 3 attempts
with waits of 1 and 2 seconds. -/
theorem transcribe_retry_policy_witness :
    transcribe_audio_chunk
        (fun i => if i < 2 then AttemptResult.err "boom" else AttemptResult.ok 7) 3 =
      (RunOutcome.ok 7, 3, [1, 2]) :=
  (transcribe_retry_policy
      (fun i => if i < 2 then AttemptResult.err "boom" else AttemptResult.ok 7)).2.2.1
    "boom" "boom" 7 rfl (by decide) rfl (by decide) rfl

/-! Pipeline orchestration claims -/

/-- Claim C3: a submission whose declared size exceeds the configured
maximum is rejected with a single user-visible message and the handler
terminates: the mode options are never shown, no workspace is created, no
download happens, and the pending-submission slot is left unchanged (so the
oversize video can never be processed later either). -/
theorem oversize_rejected (fileSize maxSizeMB fileId : ℕ) (ffmpegInstalled : Bool)
    (pendingSlot : Option ℕ) (h : maxSizeMB * 1024 * 1024 < fileSize) :
    handle_video fileSize maxSizeMB ffmpegInstalled pendingSlot fileId =
        ([Act.rejectOversize], pendingSlot)
      ∧ Act.showOptions ∉
          (handle_video fileSize maxSizeMB ffmpegInstalled pendingSlot fileId).1
      ∧ Act.createWorkspace ∉
          (handle_video fileSize maxSizeMB ffmpegInstalled pendingSlot fileId).1
      ∧ Act.download ∉
          (handle_video fileSize maxSizeMB ffmpegInstalled pendingSlot fileId).1
      ∧ (handle_video fileSize maxSizeMB ffmpegInstalled pendingSlot fileId).2 =
          pendingSlot := by
  have he : handle_video fileSize maxSizeMB ffmpegInstalled pendingSlot fileId =
      ([Act.rejectOversize], pendingSlot) := by
    simp [handle_video, h]
  rw [he]
  refine ⟨rfl, ?_, ?_, ?_, rfl⟩ <;> simp

/-- Witness for oversize_rejected: a submission one byte over the default
100 megabyte limit. -/
theorem oversize_rejected_witness :
    100 * 1024 * 1024 < 104857601
      ∧ (handle_video 104857601 100 true none 7 = ([Act.rejectOversize], none)
          ∧ Act.showOptions ∉ (handle_video 104857601 100 true none 7).1
          ∧ Act.createWorkspace ∉ (handle_video 104857601 100 true none 7).1
          ∧ Act.download ∉ (handle_video 104857601 100 true none 7).1
          ∧ (handle_video 104857601 100 true none 7).2 = none) :=
  ⟨by decide, oversize_rejected 104857601 100 7 true none (by decide)⟩

/-- Claim C4: every run that creates a workspace deletes it exactly once,
on every exit path (success, download failure, conversion failure, missing
output file, missing credential, transcription failure), and the deletion
is the last action of the run. -/
theorem workspace_cleanup_once (hasVideoId : Bool) (mode : Mode)
    (dOk cOk aEx keyOk tOk : Bool) :
    Act.createWorkspace ∈ process_video_extraction hasVideoId mode dOk cOk aEx keyOk tOk →
      (process_video_extraction hasVideoId mode dOk cOk aEx keyOk tOk).count
            Act.deleteWorkspace = 1
        ∧ (process_video_extraction hasVideoId mode dOk cOk aEx keyOk tOk).count
            Act.createWorkspace = 1
        ∧ (process_video_extraction hasVideoId mode dOk cOk aEx keyOk tOk).getLast? =
            some Act.deleteWorkspace := by
  revert hasVideoId mode dOk cOk aEx keyOk tOk
  decide

/-- Witness for workspace_cleanup_once on a failing transcription run. -/
theorem workspace_cleanup_once_witness :
    (process_video_extraction true Mode.transcription_only true true true true false).count
          Act.deleteWorkspace = 1
      ∧ (process_video_extraction true Mode.transcription_only true true true true false).count
          Act.createWorkspace = 1
      ∧ (process_video_extraction true Mode.transcription_only true true true true false).getLast? =
          some Act.deleteWorkspace :=
  workspace_cleanup_once true Mode.transcription_only true true true true false (by decide)

/-- Claim C8: delivery obeys the selected mode: the audio-only mode never
sends a transcript document and sends the audio whenever delivery is
reached; the transcription-only mode never sends the audio and sends the
transcript when transcription succeeds; the combined mode sends the audio
first and the transcript after it. -/
theorem delivery_matches_mode (hasVideoId : Bool) (mode : Mode)
    (dOk cOk aEx keyOk tOk : Bool) :
    (mode = Mode.audio_only →
        Act.sendTranscriptFile ∉
            process_video_extraction hasVideoId mode dOk cOk aEx keyOk tOk
          ∧ (hasVideoId = true → dOk = true → cOk = true → aEx = true →
              Act.sendAudioFile ∈
                process_video_extraction hasVideoId mode dOk cOk aEx keyOk tOk))
      ∧ (mode = Mode.transcription_only →
          Act.sendAudioFile ∉
              process_video_extraction hasVideoId mode dOk cOk aEx keyOk tOk
            ∧ (hasVideoId = true → dOk = true → cOk = true → aEx = true →
                keyOk = true → tOk = true →
                Act.sendTranscriptFile ∈
                  process_video_extraction hasVideoId mode dOk cOk aEx keyOk tOk))
      ∧ (mode = Mode.audio_and_transcription → hasVideoId = true → dOk = true →
          cOk = true → aEx = true →
          Act.sendAudioFile ∈
              process_video_extraction hasVideoId mode dOk cOk aEx keyOk tOk
            ∧ (keyOk = true → tOk = true →
                List.Sublist [Act.sendAudioFile, Act.sendTranscriptFile]
                  (process_video_extraction hasVideoId mode dOk cOk aEx keyOk tOk))) := by
  refine ⟨?_, ?_, ?_⟩ <;>
    (revert hasVideoId mode dOk cOk aEx keyOk tOk; decide)

/-- Witness for delivery_matches_mode on a fully successful combined run:
the audio document comes before the transcript document. -/
theorem delivery_matches_mode_witness :
    Act.sendAudioFile ∈
        process_video_extraction true Mode.audio_and_transcription true true true true true
      ∧ List.Sublist [Act.sendAudioFile, Act.sendTranscriptFile]
          (process_video_extraction true Mode.audio_and_transcription true true true true true) := by
  have h := (delivery_matches_mode true Mode.audio_and_transcription
    true true true true true).2.2 rfl rfl rfl rfl rfl
  exact ⟨h.1, h.2 rfl rfl⟩

/-- The claim that a missing transcription credential is detected before
any run starts is false on the code: main (bot.py lines 544-554) only
checks the chat-platform token, and the credential check sits inside
transcribe_full_audio (bot.py lines 221-223), which runs after the
download and the conversion; a transcription-mode run with the credential
absent still creates its workspace, downloads and converts. -/
theorem credential_checked_midrun_cex :
    Act.createWorkspace ∈
        process_video_extraction true Mode.transcription_only true true true false true
      ∧ Act.download ∈
          process_video_extraction true Mode.transcription_only true true true false true
      ∧ Act.convert ∈
          process_video_extraction true Mode.transcription_only true true true false true := by
  decide

/-- Claim C9 (amended: the missing-credential failure is detected only when
transcription begins, not before the run starts): with the credential
absent no transcript is ever sent, and a transcription-only run whose
download and conversion succeed performs exactly workspace creation,
download, conversion, one error message and one workspace deletion. -/
theorem credential_failure_at_transcription (mode : Mode) (dOk cOk aEx tOk : Bool) :
    Act.sendTranscriptFile ∉
        process_video_extraction true mode dOk cOk aEx false tOk
      ∧ (mode = Mode.transcription_only → dOk = true → cOk = true → aEx = true →
          process_video_extraction true mode dOk cOk aEx false tOk =
            [Act.createWorkspace, Act.download, Act.convert, Act.sendErrorMessage,
              Act.deleteWorkspace]) := by
  revert mode dOk cOk aEx tOk
  decide

/-- Witness for credential_failure_at_transcription on a transcription-only
run with everything but the credential in place. -/
theorem credential_failure_at_transcription_witness :
    Act.sendTranscriptFile ∉
        process_video_extraction true Mode.transcription_only true true true false true
      ∧ process_video_extraction true Mode.transcription_only true true true false true =
          [Act.createWorkspace, Act.download, Act.convert, Act.sendErrorMessage,
            Act.deleteWorkspace] :=
  ⟨(credential_failure_at_transcription Mode.transcription_only true true true true).1,
    (credential_failure_at_transcription Mode.transcription_only true true true true).2
      rfl rfl rfl rfl⟩

end VideoBot
